import Mathlib

/-!
Shallow embedding of the embedding/rerank microservice in
`src/embedding-service/main.py` (FastAPI app "Embedding Service").

Modelling conventions:
* Python floats are idealised as elements of a linear ordered field
  (`ℝ` where the code applies transcendental functions `exp` / `sqrt`,
  a generic `α` elsewhere, instantiated at `ℚ`/`ℤ` for concrete runs).
* Configuration globals (`TARGET_DIMENSION`, `EMBEDDING_PROVIDER`,
  `RERANK_PROVIDER`, model-loaded flags, API-key availability) become
  explicit parameters, since they are read once from the environment.
* External effects (Ollama HTTP calls, Gemini API calls, the local
  `SentenceTransformer` / `CrossEncoder` models) are inputs: their
  outcomes (returned data or raised errors) are parameters of the
  functions that perform them.
* A raised Python exception is modelled as an `Except` error value.
  `HTTPException(status, detail)` becomes `HTTPError`; any other
  exception carries its message string.
-/

namespace Skald

/-- Model of FastAPI `HTTPException(status_code, detail)`. -/
structure HTTPError where
  status : ℕ
  detail : String
deriving DecidableEq, Repr

/-- A Python exception as seen by a `try`/`except` block in the handlers:
either an `HTTPException` (re-raised as is by `except HTTPException: raise`)
or any other exception, carrying its `str(e)` message. -/
inductive PyExc where
  | http (e : HTTPError)
  | generic (msg : String)
deriving DecidableEq, Repr

/-! ### `normalize_embedding` (main.py 132-145) -/

/-- Python `normalize_embedding(embedding)`: pad with zeros up to `TARGET_DIMENSION`,
return unchanged at exactly `TARGET_DIMENSION`, raise `ValueError` above it. -/
def normalize_embedding {α : Type} [Zero α] (TARGET_DIMENSION : ℕ)
    (embedding : List α) : Except String (List α) :=
  let current_dim := embedding.length
  if current_dim = TARGET_DIMENSION then
    Except.ok embedding
  else if current_dim < TARGET_DIMENSION then
    Except.ok (embedding ++ List.replicate (TARGET_DIMENSION - current_dim) 0)
  else
    Except.error ("Embedding dimension " ++ toString current_dim ++
      " exceeds maximum supported dimension " ++ toString TARGET_DIMENSION)

/-! ### Embedding backends (main.py 148-202, 379-390)

Each backend call is parameterised by its external outcome. -/

/-- Outcome of the HTTP POST inside `get_ollama_embedding`:
either a successful JSON response carrying `data["embedding"]`,
an `httpx.HTTPStatusError`, or any other exception (connection failure). -/
inductive OllamaOutcome (α : Type) where
  | success (data : List α)
  | httpStatusError (err : String)
  | otherError (err : String)

/-- Outcome of the Gemini API call inside `get_gemini_embedding`. -/
inductive GeminiOutcome (α : Type) where
  | success (data : List α)
  | failure (err : String)

/-- Outcome of `embedding_model.encode(...)` in the local branch of `embed`. -/
inductive LocalEncodeOutcome (α : Type) where
  | success (data : List α)
  | failure (err : String)

/-- Python `get_ollama_embedding` (main.py 148-164): returns the embedding, or raises
`HTTPException(502, "Ollama API error: ...")` on an HTTP status error and
`HTTPException(500, "Ollama connection failed: ...")` on any other exception. -/
def get_ollama_embedding {α : Type} (o : OllamaOutcome α) : Except PyExc (List α) :=
  match o with
  | .success d => Except.ok d
  | .httpStatusError e => Except.error (PyExc.http ⟨502, "Ollama API error: " ++ e⟩)
  | .otherError e => Except.error (PyExc.http ⟨500, "Ollama connection failed: " ++ e⟩)

/-- Python `get_gemini_embedding` (main.py 181-202): without configured keys the
internal `ValueError("No Gemini API keys configured")` is caught by the
function's own `except` clause; every exception is converted to
`HTTPException(500, "Gemini API error: ...")`. -/
def get_gemini_embedding {α : Type} (keys_configured : Bool) (o : GeminiOutcome α) :
    Except PyExc (List α) :=
  if keys_configured then
    match o with
    | .success d => Except.ok d
    | .failure e => Except.error (PyExc.http ⟨500, "Gemini API error: " ++ e⟩)
  else
    Except.error (PyExc.http ⟨500, "Gemini API error: No Gemini API keys configured"⟩)

/-- Response model `EmbedResponse` (main.py 317-319). -/
structure EmbedResponse (α : Type) where
  embedding : List α
  dimension : ℕ
deriving DecidableEq, Repr

/-- Provider dispatch inside the `try` block of `embed` (main.py 379-390):
`ollama`, then `gemini`, then `local` (503 if the model is not loaded,
otherwise `encode`, whose failure is an ordinary exception), else 501. -/
def embedBackend {α : Type} (EMBEDDING_PROVIDER : String)
    (keys_configured embedding_model_loaded : Bool)
    (ollamaOutcome : OllamaOutcome α) (geminiOutcome : GeminiOutcome α)
    (localOutcome : LocalEncodeOutcome α) : Except PyExc (List α) :=
  if EMBEDDING_PROVIDER = "ollama" then
    get_ollama_embedding ollamaOutcome
  else if EMBEDDING_PROVIDER = "gemini" then
    get_gemini_embedding keys_configured geminiOutcome
  else if EMBEDDING_PROVIDER = "local" then
    if embedding_model_loaded = false then
      Except.error (PyExc.http ⟨503, "Local embedding model not available"⟩)
    else
      match localOutcome with
      | .success d => Except.ok d
      | .failure e => Except.error (PyExc.generic e)
  else
    Except.error (PyExc.http ⟨501, "Provider " ++ EMBEDDING_PROVIDER ++ " not implemented"⟩)

/-- The `/embed` handler (main.py 364-402).  The `try` body obtains the raw
embedding, optionally normalizes it (a `ValueError` from
`normalize_embedding` is an ordinary exception), and builds the response.
`except HTTPException: raise` re-raises HTTP errors unchanged; any other
exception becomes `HTTPException(500, "Embedding generation failed: ...")`. -/
def embed {α : Type} [Zero α] (TARGET_DIMENSION : ℕ) (EMBEDDING_PROVIDER : String)
    (keys_configured embedding_model_loaded : Bool)
    (ollamaOutcome : OllamaOutcome α) (geminiOutcome : GeminiOutcome α)
    (localOutcome : LocalEncodeOutcome α) (normalize : Bool) :
    Except HTTPError (EmbedResponse α) :=
  let body : Except PyExc (EmbedResponse α) :=
    match embedBackend EMBEDDING_PROVIDER keys_configured embedding_model_loaded
        ollamaOutcome geminiOutcome localOutcome with
    | .error e => Except.error e
    | .ok embedding =>
      let normalized : Except PyExc (List α) :=
        if normalize then
          match normalize_embedding TARGET_DIMENSION embedding with
          | .ok v => Except.ok v
          | .error m => Except.error (PyExc.generic m)
        else Except.ok embedding
      match normalized with
      | .error e => Except.error e
      | .ok emb => Except.ok ⟨emb, emb.length⟩
  match body with
  | .ok r => Except.ok r
  | .error (.http e) => Except.error e
  | .error (.generic m) => Except.error ⟨500, "Embedding generation failed: " ++ m⟩

/-! ### Rerank data model (main.py 335-344, 431-440) -/

/-- A Python value arriving as a document: a `str`, a `dict` (modelled as an
association list of its items plus its `str(...)` rendering), or anything
else (carrying its `str(...)` rendering).  The request model declares
`documents: list[str]`, so at runtime only the `pystr` case occurs, but
`get_document_text` handles all three shapes. -/
inductive PyDoc where
  | pystr (s : String)
  | pydict (entries : List (String × String)) (reprS : String)
  | pyother (reprS : String)
deriving DecidableEq, Inhabited, Repr

/-- Python `str(doc)`. -/
def pyStr : PyDoc → String
  | .pystr s => s
  | .pydict _ r => r
  | .pyother r => r

/-- Python `get_document_text(doc)` (main.py 431-438 and 466-473): a string is
returned as is; for a dict the first present key among
`text`, `content`, `document`, `page_content` wins; otherwise `str(doc)`. -/
def get_document_text (doc : PyDoc) : String :=
  match doc with
  | .pystr s => s
  | .pydict entries reprS =>
    match ["text", "content", "document", "page_content"].findSome?
        (fun f => entries.lookup f) with
    | some v => v
    | none => reprS
  | .pyother reprS => reprS

/-- Response item `RerankResult` (main.py 335-338). -/
structure RerankResult (α : Type) where
  index : ℕ
  document : String
  relevance_score : α

/-- Response model `RerankResponse` (main.py 341-344). -/
structure RerankResponse (α : Type) where
  results : List (RerankResult α)

/-! ### Pure rerank helpers -/

/-- Python `enumerate` starting at `n`. -/
def enumerateFrom {γ : Type} (n : ℕ) : List γ → List (ℕ × γ)
  | [] => []
  | x :: xs => (n, x) :: enumerateFrom (n + 1) xs

/-- Python `enumerate(l)`. -/
def enumerate {γ : Type} (l : List γ) : List (ℕ × γ) := enumerateFrom 0 l

/-- Insertion step of a stable descending sort on the score component:
the new element `x` (originally positioned before every element of the
list it is inserted into) goes in front of the first element whose score
does not exceed `x`'s. -/
def insertScoreDesc {β : Type} [LinearOrder β] (x : ℕ × β) :
    List (ℕ × β) → List (ℕ × β)
  | [] => [x]
  | y :: ys => if y.2 ≤ x.2 then x :: y :: ys else y :: insertScoreDesc x ys

/-- Python `scores.sort(key=lambda x: x[1], reverse=True)` (main.py 262, 290):
Python's `list.sort` is a stable sort; with `reverse=True` it orders by
descending key and keeps the original relative order of equal keys.  Any
stable sort has that exact extensional behaviour; we use insertion sort. -/
def sortByScoreDesc {β : Type} [LinearOrder β] : List (ℕ × β) → List (ℕ × β)
  | [] => []
  | x :: xs => insertScoreDesc x (sortByScoreDesc xs)

/-- Python float formatting of the score to six decimal places, i.e.
float of the f-string with format spec .6f (main.py 451, 486, 507): the score is rounded to
six decimal places before being placed in a `RerankResult`. -/
def format6 {α : Type} [LinearOrderedField α] [FloorRing α] (x : α) : α :=
  ((round (x * 1000000) : ℤ) : α) / 1000000

/-- Python `preprocess_korean_query` (main.py 90-107): strip the query and collapse
every whitespace run to a single space (the Korean-specific branch is a
no-op in the source). -/
def preprocess_korean_query (query : String) : String :=
  String.intercalate " "
    ((query.split (fun c => c.isWhitespace)).filter (fun s => s ≠ ""))

/-- Result assembly loop shared by the local and Ollama branches of `rerank`
(main.py 445-453 and 480-488): each `(idx, score)` pair becomes a
`RerankResult(index=idx, document=doc_texts[idx],
relevance_score equal to the score formatted to six decimals)`. -/
def buildResults {α : Type} [LinearOrderedField α] [FloorRing α]
    (doc_texts : List String) (scores : List (ℕ × α)) : List (RerankResult α) :=
  scores.map (fun p => ⟨p.1, doc_texts.getD p.1 "", format6 p.2⟩)

/-- The `top_k` truncation (main.py 455-456, 490-491, 510-511):
`if isinstance(request.top_k, int) and request.top_k > 0:
reranked = reranked[:request.top_k]`.  `top_k` is `None` or an `int`. -/
def applyTopK {α : Type} (top_k : Option ℤ) (reranked : List (RerankResult α)) :
    List (RerankResult α) :=
  match top_k with
  | some k => if 0 < k then reranked.take k.toNat else reranked
  | none => reranked

/-- Fallback branch of `rerank` (main.py 497-512): documents in original
order, `score = 1.0 - (idx * 0.01)`, `document = doc if isinstance(doc, str)
else str(doc)`. -/
def fallbackResults {α : Type} [LinearOrderedField α] [FloorRing α]
    (documents : List PyDoc) : List (RerankResult α) :=
  (enumerate documents).map
    (fun p => ⟨p.1, pyStr p.2, format6 (1 - (p.1 : α) * (1 / 100))⟩)

/-! ### Score computations over ℝ (main.py 224-300) -/

/-- Sigmoid normalization `1 / (1 + np.exp(-score))` (main.py 284). -/
noncomputable def sigmoid (x : ℝ) : ℝ := 1 / (1 + Real.exp (-x))

/-- Python `cosine_similarity(vec1, vec2)` (main.py 224-233): dot product over the
common length, Euclidean norms, `0.0` when either norm vanishes. -/
noncomputable def cosine_similarity (vec1 vec2 : List ℝ) : ℝ :=
  let dot_product := (List.zipWith (fun a b => a * b) vec1 vec2).sum
  let norm1 := Real.sqrt ((vec1.map (fun a => a ^ 2)).sum)
  let norm2 := Real.sqrt ((vec2.map (fun a => a ^ 2)).sum)
  if norm1 = 0 ∨ norm2 = 0 then 0 else dot_product / (norm1 * norm2)

/-- Python `_rerank_with_crossencoder` (main.py 266-292): preprocess the query,
form `(query, doc)` pairs, obtain raw scores from the external
`rerank_model.predict` (a parameter here), normalize by sigmoid, enumerate
and sort by descending score.  Raising on a missing model is handled by the
caller's provider check, cf. `rerank`. -/
noncomputable def rerank_with_crossencoder
    (predict : List (String × String) → List ℝ)
    (query : String) (documents : List String) : List (ℕ × ℝ) :=
  let processed_query := preprocess_korean_query query
  let pairs := documents.map (fun doc => (processed_query, doc))
  let scores := predict pairs
  let normalized_scores := scores.map sigmoid
  sortByScoreDesc (enumerate normalized_scores)

/-- Python `rerank_with_ollama` (main.py 240-263): embed the query and every
document with the external Ollama rerank model (`embOf`), score each
document by `(cosine_similarity + 1) / 2`, sort by descending score. -/
noncomputable def rerank_with_ollama (embOf : String → List ℝ)
    (query : String) (documents : List String) : List (ℕ × ℝ) :=
  let query_embedding := embOf query
  let doc_embeddings := documents.map embOf
  let scores := (enumerate doc_embeddings).map
    (fun p => (p.1, (cosine_similarity query_embedding p.2 + 1) / 2))
  sortByScoreDesc scores

/-- The `/rerank` handler (main.py 405-517): empty documents short-circuit
to an empty result list; then the local CrossEncoder branch (provider
`"local"` with a loaded model), the Ollama branch (provider `"ollama"`),
and otherwise the fallback branch. -/
noncomputable def rerank (RERANK_PROVIDER : String) (rerank_model_loaded : Bool)
    (predict : List (String × String) → List ℝ) (embOf : String → List ℝ)
    (query : String) (documents : List PyDoc) (top_k : Option ℤ) :
    RerankResponse ℝ :=
  if documents.isEmpty then ⟨[]⟩
  else if RERANK_PROVIDER = "local" ∧ rerank_model_loaded = true then
    let doc_texts := documents.map get_document_text
    ⟨applyTopK top_k (buildResults doc_texts
      (rerank_with_crossencoder predict query doc_texts))⟩
  else if RERANK_PROVIDER = "ollama" then
    let doc_texts := documents.map get_document_text
    ⟨applyTopK top_k (buildResults doc_texts
      (rerank_with_ollama embOf query doc_texts))⟩
  else
    ⟨applyTopK top_k (fallbackResults documents)⟩

/-- Intended output order of the rerank helpers: strictly descending score,
with ties broken by ascending original index (what stability of the sort
gives on an enumerated input). -/
def scoreDescIdxAsc {β : Type} [LinearOrder β] (a b : ℕ × β) : Prop :=
  b.2 < a.2 ∨ (a.2 = b.2 ∧ a.1 < b.1)

/-! ## Theorems -/

/-- C1: for an embedding strictly shorter than `TARGET_DIMENSION`,
`normalize_embedding` returns the input padded with zeros to exactly
`TARGET_DIMENSION`: the first elements are the input unchanged and the
remaining elements are all zero; nothing is dropped. -/
theorem normalize_embedding_pads {α : Type} [Zero α] (TARGET_DIMENSION : ℕ)
    (v : List α) (h : v.length < TARGET_DIMENSION) :
    normalize_embedding TARGET_DIMENSION v =
      Except.ok (v ++ List.replicate (TARGET_DIMENSION - v.length) (0 : α)) ∧
    (v ++ List.replicate (TARGET_DIMENSION - v.length) (0 : α)).length =
      TARGET_DIMENSION ∧
    (v ++ List.replicate (TARGET_DIMENSION - v.length) (0 : α)).take v.length = v ∧
    ∀ x ∈ (v ++ List.replicate (TARGET_DIMENSION - v.length) (0 : α)).drop v.length,
      x = 0 := by
  have hne : v.length ≠ TARGET_DIMENSION := Nat.ne_of_lt h
  refine ⟨by simp [normalize_embedding, hne, h], ?_, ?_, ?_⟩
  · simp only [List.length_append, List.length_replicate]
    omega
  · exact List.take_left v _
  · intro x hx
    rw [List.drop_left] at hx
    exact List.eq_of_mem_replicate hx

/-- Witness for C1 at `TARGET_DIMENSION = 4`, `v = [5, 6]` over `ℤ`. -/
theorem normalize_embedding_pads_witness :
    ([(5 : ℤ), 6].length < 4) ∧
    (normalize_embedding 4 [(5 : ℤ), 6] =
      Except.ok ([(5 : ℤ), 6] ++ List.replicate (4 - [(5 : ℤ), 6].length) (0 : ℤ)) ∧
    ([(5 : ℤ), 6] ++ List.replicate (4 - [(5 : ℤ), 6].length) (0 : ℤ)).length = 4 ∧
    ([(5 : ℤ), 6] ++ List.replicate (4 - [(5 : ℤ), 6].length) (0 : ℤ)).take
        [(5 : ℤ), 6].length = [(5 : ℤ), 6] ∧
    ∀ x ∈ ([(5 : ℤ), 6] ++ List.replicate (4 - [(5 : ℤ), 6].length) (0 : ℤ)).drop
        [(5 : ℤ), 6].length, x = 0) :=
  ⟨by decide, normalize_embedding_pads 4 [(5 : ℤ), 6] (by decide)⟩

/-- C2: an embedding strictly longer than `TARGET_DIMENSION` makes
`normalize_embedding` raise a `ValueError`, and an `/embed` request with
`normalize` set whose backend returns such a vector fails with
`HTTPException(500, "Embedding generation failed: ...")` instead of
returning a truncated vector. -/
theorem normalize_embedding_oversized_errors {α : Type} [Zero α]
    (TARGET_DIMENSION : ℕ) (v : List α) (h : TARGET_DIMENSION < v.length) :
    normalize_embedding TARGET_DIMENSION v =
      Except.error ("Embedding dimension " ++ toString v.length ++
        " exceeds maximum supported dimension " ++ toString TARGET_DIMENSION) ∧
    ∀ (EMBEDDING_PROVIDER : String) (kc ml : Bool) (oO : OllamaOutcome α)
      (gO : GeminiOutcome α) (lO : LocalEncodeOutcome α),
      embedBackend EMBEDDING_PROVIDER kc ml oO gO lO = Except.ok v →
      embed TARGET_DIMENSION EMBEDDING_PROVIDER kc ml oO gO lO true =
        Except.error ⟨500, "Embedding generation failed: " ++
          ("Embedding dimension " ++ toString v.length ++
            " exceeds maximum supported dimension " ++ toString TARGET_DIMENSION)⟩ := by
  have hne : v.length ≠ TARGET_DIMENSION := Nat.ne_of_gt h
  have hnlt : ¬ v.length < TARGET_DIMENSION := Nat.not_lt.mpr (Nat.le_of_lt h)
  have herr : normalize_embedding TARGET_DIMENSION v =
      Except.error ("Embedding dimension " ++ toString v.length ++
        " exceeds maximum supported dimension " ++ toString TARGET_DIMENSION) := by
    simp [normalize_embedding, hne, hnlt]
  refine ⟨herr, ?_⟩
  intro EP kc ml oO gO lO hb
  simp [embed, hb, herr]

/-- Witness for C2 at `TARGET_DIMENSION = 2`, backend vector `[1, 2, 3]`
via the Ollama provider. -/
theorem normalize_embedding_oversized_errors_witness :
    (2 < [(1 : ℤ), 2, 3].length) ∧
    embedBackend "ollama" true true (OllamaOutcome.success [(1 : ℤ), 2, 3])
      (GeminiOutcome.success []) (LocalEncodeOutcome.success []) =
      Except.ok [(1 : ℤ), 2, 3] ∧
    embed 2 "ollama" true true (OllamaOutcome.success [(1 : ℤ), 2, 3])
      (GeminiOutcome.success []) (LocalEncodeOutcome.success []) true =
      Except.error ⟨500, "Embedding generation failed: " ++
        ("Embedding dimension " ++ toString [(1 : ℤ), 2, 3].length ++
          " exceeds maximum supported dimension " ++ toString 2)⟩ :=
  ⟨by decide, rfl,
    (normalize_embedding_oversized_errors 2 [(1 : ℤ), 2, 3] (by decide)).2
      "ollama" true true (OllamaOutcome.success [(1 : ℤ), 2, 3])
      (GeminiOutcome.success []) (LocalEncodeOutcome.success []) rfl⟩

/-- C3: `normalize_embedding` is the identity on vectors of length exactly
`TARGET_DIMENSION`, and for every vector of length at most
`TARGET_DIMENSION` applying it twice equals applying it once. -/
theorem normalize_embedding_idempotent {α : Type} [Zero α]
    (TARGET_DIMENSION : ℕ) (v : List α) (hle : v.length ≤ TARGET_DIMENSION) :
    (v.length = TARGET_DIMENSION →
      normalize_embedding TARGET_DIMENSION v = Except.ok v) ∧
    (normalize_embedding TARGET_DIMENSION v).bind
        (normalize_embedding TARGET_DIMENSION) =
      normalize_embedding TARGET_DIMENSION v := by
  have hid : ∀ w : List α, w.length = TARGET_DIMENSION →
      normalize_embedding TARGET_DIMENSION w = Except.ok w := by
    intro w hw
    simp [normalize_embedding, hw]
  refine ⟨hid v, ?_⟩
  rcases Nat.lt_or_ge v.length TARGET_DIMENSION with hlt | hge
  · have hne : v.length ≠ TARGET_DIMENSION := Nat.ne_of_lt hlt
    have hpad : normalize_embedding TARGET_DIMENSION v =
        Except.ok (v ++ List.replicate (TARGET_DIMENSION - v.length) (0 : α)) := by
      simp [normalize_embedding, hne, hlt]
    have hlen : (v ++ List.replicate (TARGET_DIMENSION - v.length) (0 : α)).length =
        TARGET_DIMENSION := by
      simp only [List.length_append, List.length_replicate]
      omega
    rw [hpad, Except.bind, hid _ hlen]
  · have heq : v.length = TARGET_DIMENSION := Nat.le_antisymm hle hge
    rw [hid v heq, Except.bind, hid v heq]

/-- Witness for C3 at `TARGET_DIMENSION = 3` with `v = [7, 8, 9]` over `ℤ`. -/
theorem normalize_embedding_idempotent_witness :
    ([(7 : ℤ), 8, 9].length ≤ 3) ∧
    (([(7 : ℤ), 8, 9].length = 3 →
      normalize_embedding 3 [(7 : ℤ), 8, 9] = Except.ok [(7 : ℤ), 8, 9]) ∧
    (normalize_embedding 3 [(7 : ℤ), 8, 9]).bind (normalize_embedding 3) =
      normalize_embedding 3 [(7 : ℤ), 8, 9]) :=
  ⟨by decide, normalize_embedding_idempotent 3 [(7 : ℤ), 8, 9] (by decide)⟩

/-- C8 counterexample: with the Ollama provider, an upstream HTTP status
error surfaces from `/embed` as `HTTPException(502, "Ollama API error: ...")`,
re-raised unchanged by `except HTTPException: raise` — the failure message
is not "embedding generation failed". -/
theorem embed_ollama_http_error_not_wrapped :
    embed 768 "ollama" true true
        (OllamaOutcome.httpStatusError "boom" : OllamaOutcome ℤ)
        (GeminiOutcome.success []) (LocalEncodeOutcome.success []) true =
      Except.error ⟨502, "Ollama API error: boom"⟩ ∧
    ("Embedding generation failed").isPrefixOf "Ollama API error: boom" = false := by
  exact ⟨rfl, by decide⟩

/-- C8 (amended): backend failures that are raised as `HTTPException`s —
Ollama HTTP errors (502) and connection failures (500), Gemini API errors
(500) — propagate through `/embed` unchanged with their provider-specific
messages; only failures that are not `HTTPException`s (local-model `encode`
errors, and normalization errors) are wrapped into the single category
`"Embedding generation failed: ..."` with the upstream cause appended. -/
theorem embed_error_wrapping {α : Type} [Zero α] (TARGET_DIMENSION : ℕ)
    (EP : String) (kc ml : Bool) (oO : OllamaOutcome α) (gO : GeminiOutcome α)
    (lO : LocalEncodeOutcome α) (nrm : Bool) :
    (∀ e, embedBackend EP kc ml oO gO lO = Except.error (PyExc.http e) →
      embed TARGET_DIMENSION EP kc ml oO gO lO nrm = Except.error e) ∧
    (∀ m, embedBackend EP kc ml oO gO lO = Except.error (PyExc.generic m) →
      embed TARGET_DIMENSION EP kc ml oO gO lO nrm =
        Except.error ⟨500, "Embedding generation failed: " ++ m⟩) ∧
    (∀ s, EP = "ollama" → oO = OllamaOutcome.httpStatusError s →
      embed TARGET_DIMENSION EP kc ml oO gO lO nrm =
        Except.error ⟨502, "Ollama API error: " ++ s⟩) ∧
    (∀ s, EP = "gemini" → kc = true → gO = GeminiOutcome.failure s →
      embed TARGET_DIMENSION EP kc ml oO gO lO nrm =
        Except.error ⟨500, "Gemini API error: " ++ s⟩) ∧
    (∀ m, EP = "local" → ml = true → lO = LocalEncodeOutcome.failure m →
      embed TARGET_DIMENSION EP kc ml oO gO lO nrm =
        Except.error ⟨500, "Embedding generation failed: " ++ m⟩) := by
  refine ⟨?_, ?_, ?_, ?_, ?_⟩
  · intro e he
    simp [embed, he]
  · intro m hm
    simp [embed, hm]
  · intro s hEP hoO
    subst hEP; subst hoO
    simp [embed, embedBackend, get_ollama_embedding]
  · intro s hEP hkc hgO
    subst hEP; subst hkc; subst hgO
    simp [embed, embedBackend, get_gemini_embedding]
  · intro m hEP hml hlO
    subst hEP; subst hml; subst hlO
    simp [embed, embedBackend]

/-- Witness for the amended C8: a concrete Ollama HTTP failure and a
concrete local `encode` failure, each with its actual error category. -/
theorem embed_error_wrapping_witness :
    embed 768 "ollama" true true
        (OllamaOutcome.httpStatusError "oops" : OllamaOutcome ℤ)
        (GeminiOutcome.success []) (LocalEncodeOutcome.success []) true =
      Except.error ⟨502, "Ollama API error: " ++ "oops"⟩ ∧
    embed 768 "local" true true
        (OllamaOutcome.success [] : OllamaOutcome ℤ)
        (GeminiOutcome.success []) (LocalEncodeOutcome.failure "cuda gone") false =
      Except.error ⟨500, "Embedding generation failed: " ++ "cuda gone"⟩ :=
  ⟨(embed_error_wrapping 768 "ollama" true true
      (OllamaOutcome.httpStatusError "oops" : OllamaOutcome ℤ)
      (GeminiOutcome.success []) (LocalEncodeOutcome.success []) true).2.2.1
      "oops" rfl rfl,
    (embed_error_wrapping 768 "local" true true
      (OllamaOutcome.success [] : OllamaOutcome ℤ)
      (GeminiOutcome.success []) (LocalEncodeOutcome.failure "cuda gone") false).2.2.2.2
      "cuda gone" rfl rfl rfl⟩

/-! ### Helper lemmas: enumerate -/

theorem length_enumerateFrom {γ : Type} (n : ℕ) (l : List γ) :
    (enumerateFrom n l).length = l.length := by
  induction l generalizing n with
  | nil => rfl
  | cons x xs ih => simp [enumerateFrom, ih]

theorem length_enumerate {γ : Type} (l : List γ) :
    (enumerate l).length = l.length :=
  length_enumerateFrom 0 l

theorem le_fst_of_mem_enumerateFrom {γ : Type} {p : ℕ × γ} {n : ℕ} {l : List γ}
    (h : p ∈ enumerateFrom n l) : n ≤ p.1 := by
  induction l generalizing n with
  | nil => simp [enumerateFrom] at h
  | cons x xs ih =>
    rcases List.mem_cons.mp h with h1 | h1
    · subst h1; exact Nat.le_refl n
    · exact Nat.le_of_succ_le (ih h1)

theorem mem_enumerateFrom {γ : Type} [Inhabited γ] {p : ℕ × γ} {n : ℕ} {l : List γ}
    (h : p ∈ enumerateFrom n l) :
    n ≤ p.1 ∧ p.1 - n < l.length ∧ p.2 = l.getD (p.1 - n) default := by
  induction l generalizing n with
  | nil => simp [enumerateFrom] at h
  | cons x xs ih =>
    rcases List.mem_cons.mp h with h1 | h1
    · subst h1
      simp
    · obtain ⟨h2, h3, h4⟩ := ih h1
      refine ⟨by omega, by simp only [List.length_cons]; omega, ?_⟩
      have hs : p.1 - n = (p.1 - (n + 1)) + 1 := by omega
      rw [hs, List.getD_cons_succ]
      exact h4

theorem mem_enumerate {γ : Type} [Inhabited γ] {p : ℕ × γ} {l : List γ}
    (h : p ∈ enumerate l) :
    p.1 < l.length ∧ p.2 = l.getD p.1 default := by
  obtain ⟨_, h2, h3⟩ := mem_enumerateFrom h
  rw [Nat.sub_zero] at h2 h3
  exact ⟨h2, h3⟩

theorem snd_mem_of_mem_enumerateFrom {γ : Type} {p : ℕ × γ} {n : ℕ} {l : List γ}
    (h : p ∈ enumerateFrom n l) : p.2 ∈ l := by
  induction l generalizing n with
  | nil => simp [enumerateFrom] at h
  | cons x xs ih =>
    rcases List.mem_cons.mp h with h1 | h1
    · subst h1; exact List.mem_cons_self _ _
    · exact List.mem_cons_of_mem _ (ih h1)

theorem get_enumerateFrom {γ : Type} (n : ℕ) (l : List γ) (i : ℕ)
    (h : i < (enumerateFrom n l).length) (h2 : i < l.length) :
    (enumerateFrom n l).get ⟨i, h⟩ = (n + i, l.get ⟨i, h2⟩) := by
  induction l generalizing n i with
  | nil => simp at h2
  | cons x xs ih =>
    cases i with
    | zero => simp [enumerateFrom]
    | succ j =>
      have hj : j < (enumerateFrom (n + 1) xs).length := by
        simpa [enumerateFrom] using h
      have hj2 : j < xs.length := by simpa using h2
      have : (enumerateFrom n (x :: xs)).get ⟨j + 1, h⟩ =
          (enumerateFrom (n + 1) xs).get ⟨j, hj⟩ := rfl
      rw [this, ih]
      have harith : n + 1 + j = n + (j + 1) := by omega
      rw [harith]
      rfl

theorem pairwise_fst_lt_enumerateFrom {γ : Type} (n : ℕ) (l : List γ) :
    (enumerateFrom n l).Pairwise (fun a b => a.1 < b.1) := by
  induction l generalizing n with
  | nil => exact List.Pairwise.nil
  | cons x xs ih =>
    refine List.Pairwise.cons ?_ (ih (n + 1))
    intro p hp
    exact Nat.lt_of_lt_of_le (Nat.lt_succ_self n) (le_fst_of_mem_enumerateFrom hp)

theorem pairwise_fst_lt_enumerate {γ : Type} (l : List γ) :
    (enumerate l).Pairwise (fun a b => a.1 < b.1) :=
  pairwise_fst_lt_enumerateFrom 0 l

/-! ### Helper lemmas: stable descending sort -/

theorem perm_insertScoreDesc {β : Type} [LinearOrder β] (x : ℕ × β)
    (l : List (ℕ × β)) : List.Perm (insertScoreDesc x l) (x :: l) := by
  induction l with
  | nil => exact List.Perm.refl _
  | cons y ys ih =>
    by_cases h : y.2 ≤ x.2
    · rw [insertScoreDesc, if_pos h]
    · rw [insertScoreDesc, if_neg h]
      exact (List.Perm.cons y ih).trans (List.Perm.swap x y ys)

theorem perm_sortByScoreDesc {β : Type} [LinearOrder β] (l : List (ℕ × β)) :
    List.Perm (sortByScoreDesc l) l := by
  induction l with
  | nil => exact List.Perm.refl _
  | cons x xs ih =>
    exact (perm_insertScoreDesc x (sortByScoreDesc xs)).trans (List.Perm.cons x ih)

theorem length_sortByScoreDesc {β : Type} [LinearOrder β] (l : List (ℕ × β)) :
    (sortByScoreDesc l).length = l.length :=
  (perm_sortByScoreDesc l).length_eq

theorem mem_insertScoreDesc {β : Type} [LinearOrder β] {p x : ℕ × β}
    {l : List (ℕ × β)} : p ∈ insertScoreDesc x l ↔ p = x ∨ p ∈ l := by
  rw [(perm_insertScoreDesc x l).mem_iff, List.mem_cons]

theorem mem_sortByScoreDesc {β : Type} [LinearOrder β] {p : ℕ × β}
    {l : List (ℕ × β)} : p ∈ sortByScoreDesc l ↔ p ∈ l :=
  (perm_sortByScoreDesc l).mem_iff

theorem pairwise_insertScoreDesc {β : Type} [LinearOrder β] {x : ℕ × β}
    {l : List (ℕ × β)} (hl : l.Pairwise scoreDescIdxAsc)
    (hx : ∀ y ∈ l, x.1 < y.1) :
    (insertScoreDesc x l).Pairwise scoreDescIdxAsc := by
  induction l with
  | nil =>
    rw [insertScoreDesc]
    exact List.pairwise_singleton _ _
  | cons y ys ih =>
    rcases List.pairwise_cons.mp hl with ⟨hy, hys⟩
    by_cases h : y.2 ≤ x.2
    · rw [insertScoreDesc, if_pos h]
      refine List.Pairwise.cons ?_ hl
      intro z hz
      have hzx : z.2 ≤ x.2 := by
        rcases List.mem_cons.mp hz with h1 | h1
        · subst h1; exact h
        · rcases hy z h1 with hlt | ⟨heq, _⟩
          · exact le_trans (le_of_lt hlt) h
          · exact le_trans (le_of_eq heq.symm) h
      rcases lt_or_eq_of_le hzx with hlt | heq
      · exact Or.inl hlt
      · exact Or.inr ⟨heq.symm, hx z hz⟩
    · rw [insertScoreDesc, if_neg h]
      have hxy : x.2 < y.2 := lt_of_not_le h
      refine List.Pairwise.cons ?_
        (ih hys (fun z hz => hx z (List.mem_cons_of_mem y hz)))
      intro w hw
      rcases mem_insertScoreDesc.mp hw with h1 | h1
      · subst h1; exact Or.inl hxy
      · exact hy w h1

theorem pairwise_sortByScoreDesc {β : Type} [LinearOrder β] {l : List (ℕ × β)}
    (hl : l.Pairwise (fun a b => a.1 < b.1)) :
    (sortByScoreDesc l).Pairwise scoreDescIdxAsc := by
  induction l with
  | nil => exact List.Pairwise.nil
  | cons x xs ih =>
    rcases List.pairwise_cons.mp hl with ⟨hx, hxs⟩
    exact pairwise_insertScoreDesc (ih hxs)
      (fun y hy => hx y (mem_sortByScoreDesc.mp hy))

theorem scoreDescIdxAsc_score_le {β : Type} [LinearOrder β] {a b : ℕ × β}
    (h : scoreDescIdxAsc a b) : b.2 ≤ a.2 := by
  rcases h with h1 | ⟨h1, _⟩
  · exact le_of_lt h1
  · exact le_of_eq h1.symm

/-! ### Helper lemmas: format6 -/

theorem round_mono_of_le {α : Type} [LinearOrderedField α] [FloorRing α]
    {x y : α} (h : x ≤ y) : round x ≤ round y := by
  rw [round_eq, round_eq]
  exact Int.floor_mono (by linarith)

theorem format6_mono {α : Type} [LinearOrderedField α] [FloorRing α] {x y : α}
    (h : x ≤ y) : format6 x ≤ format6 y := by
  unfold format6
  have h1 : round (x * 1000000) ≤ round (y * 1000000) :=
    round_mono_of_le (by linarith)
  have h2 : ((round (x * 1000000) : ℤ) : α) ≤ ((round (y * 1000000) : ℤ) : α) :=
    Int.cast_le.mpr h1
  exact (div_le_div_iff_of_pos_right (by norm_num : (0 : α) < 1000000)).mpr h2

theorem format6_bounds {α : Type} [LinearOrderedField α] [FloorRing α] {x : α}
    (h0 : 0 ≤ x) (h1 : x ≤ 1) : 0 ≤ format6 x ∧ format6 x ≤ 1 := by
  have hlo : (0 : ℤ) ≤ round (x * 1000000) := by
    have := round_mono_of_le (by linarith : (0 : α) ≤ x * 1000000)
    simpa [round_zero] using this
  have hhi : round (x * 1000000) ≤ 1000000 := by
    have h2 : x * 1000000 ≤ ((1000000 : ℤ) : α) := by push_cast; linarith
    have := round_mono_of_le h2
    simpa [round_intCast] using this
  unfold format6
  constructor
  · exact div_nonneg (by exact_mod_cast hlo) (by norm_num)
  · rw [div_le_one (by norm_num : (0 : α) < 1000000)]
    exact_mod_cast hhi

theorem format6_one_sub_idx {α : Type} [LinearOrderedField α] [FloorRing α]
    (i : ℕ) : format6 (1 - (i : α) * (1 / 100)) = 1 - (i : α) * (1 / 100) := by
  unfold format6
  have hx : (1 - (i : α) * (1 / 100)) * 1000000 =
      (((1000000 - 10000 * (i : ℤ)) : ℤ) : α) := by
    push_cast
    ring
  rw [hx, round_intCast]
  push_cast
  ring

/-! ### Helper lemmas: list indexing -/

theorem getD_eq_get {γ : Type} (l : List γ) (d : γ) {i : ℕ} (h : i < l.length) :
    l.getD i d = l.get ⟨i, h⟩ := by
  rw [List.getD_eq_getElem?_getD, List.getElem?_eq_getElem h, Option.getD_some,
    List.get_eq_getElem]

theorem getD_mem {γ : Type} (l : List γ) (d : γ) {i : ℕ} (h : i < l.length) :
    l.getD i d ∈ l := by
  rw [getD_eq_get l d h]
  exact List.get_mem l i h

theorem getD_map_of_lt {γ δ : Type} (f : γ → δ) (l : List γ) {i : ℕ}
    (h : i < l.length) (d : δ) (d2 : γ) :
    (l.map f).getD i d = f (l.getD i d2) := by
  rw [getD_eq_get (l.map f) d (by simpa using h), getD_eq_get l d2 h,
    List.get_eq_getElem, List.get_eq_getElem, List.getElem_map]

/-! ### Helper lemmas: applyTopK, buildResults, fallbackResults -/

theorem mem_applyTopK {α : Type} {top_k : Option ℤ} {l : List (RerankResult α)}
    {r : RerankResult α} (h : r ∈ applyTopK top_k l) : r ∈ l := by
  cases top_k with
  | none => exact h
  | some k =>
    by_cases hk : 0 < k
    · rw [applyTopK, if_pos hk] at h
      exact List.take_subset _ _ h
    · rw [applyTopK, if_neg hk] at h
      exact h

theorem pairwise_applyTopK {α : Type} {R : RerankResult α → RerankResult α → Prop}
    {top_k : Option ℤ} {l : List (RerankResult α)} (h : l.Pairwise R) :
    (applyTopK top_k l).Pairwise R := by
  cases top_k with
  | none => exact h
  | some k =>
    by_cases hk : 0 < k
    · rw [applyTopK, if_pos hk]
      exact h.take
    · rw [applyTopK, if_neg hk]
      exact h

theorem length_applyTopK_le {α : Type} (top_k : Option ℤ)
    (l : List (RerankResult α)) : (applyTopK top_k l).length ≤ l.length := by
  cases top_k with
  | none => exact Nat.le_refl _
  | some k =>
    by_cases hk : 0 < k
    · rw [applyTopK, if_pos hk, List.length_take]
      exact Nat.min_le_right _ _
    · rw [applyTopK, if_neg hk]

theorem length_applyTopK_pos {α : Type} (k : ℤ) (hk : 0 < k)
    (l : List (RerankResult α)) :
    (applyTopK (some k) l).length = min k.toNat l.length := by
  rw [applyTopK, if_pos hk, List.length_take]

theorem get_applyTopK {α : Type} (top_k : Option ℤ) (l : List (RerankResult α))
    (i : ℕ) (h : i < (applyTopK top_k l).length) (h2 : i < l.length) :
    (applyTopK top_k l).get ⟨i, h⟩ = l.get ⟨i, h2⟩ := by
  cases top_k with
  | none => rfl
  | some k =>
    by_cases hk : 0 < k
    · have hlist : applyTopK (some k) l = l.take k.toNat := by
        rw [applyTopK, if_pos hk]
      simp only [List.get_eq_getElem, hlist, List.getElem_take]
    · have hlist : applyTopK (some k) l = l := by
        rw [applyTopK, if_neg hk]
      simp only [List.get_eq_getElem, hlist]

theorem mem_buildResults {α : Type} [LinearOrderedField α] [FloorRing α]
    {doc_texts : List String} {scores : List (ℕ × α)} {r : RerankResult α}
    (h : r ∈ buildResults doc_texts scores) :
    ∃ p ∈ scores, r = ⟨p.1, doc_texts.getD p.1 "", format6 p.2⟩ := by
  rcases List.mem_map.mp h with ⟨p, hp, he⟩
  exact ⟨p, hp, he.symm⟩

theorem length_buildResults {α : Type} [LinearOrderedField α] [FloorRing α]
    (doc_texts : List String) (scores : List (ℕ × α)) :
    (buildResults doc_texts scores).length = scores.length :=
  List.length_map _ _

theorem mem_fallbackResults {α : Type} [LinearOrderedField α] [FloorRing α]
    {documents : List PyDoc} {r : RerankResult α}
    (h : r ∈ (fallbackResults documents : List (RerankResult α))) :
    ∃ p ∈ enumerate documents,
      r = ⟨p.1, pyStr p.2, format6 (1 - (p.1 : α) * (1 / 100))⟩ := by
  rcases List.mem_map.mp h with ⟨p, hp, he⟩
  exact ⟨p, hp, he.symm⟩

theorem length_fallbackResults {α : Type} [LinearOrderedField α] [FloorRing α]
    (documents : List PyDoc) :
    (fallbackResults documents : List (RerankResult α)).length =
      documents.length := by
  unfold fallbackResults
  rw [List.length_map, length_enumerate]

theorem get_fallbackResults {α : Type} [LinearOrderedField α] [FloorRing α]
    (documents : List PyDoc) (i : ℕ)
    (h : i < (fallbackResults documents : List (RerankResult α)).length)
    (h2 : i < documents.length) :
    (fallbackResults documents : List (RerankResult α)).get ⟨i, h⟩ =
      ⟨i, pyStr (documents.get ⟨i, h2⟩), format6 (1 - (i : α) * (1 / 100))⟩ := by
  have he : i < (enumerate documents).length := by
    rw [length_enumerate]
    exact h2
  have hg : (enumerate documents).get ⟨i, he⟩ = (0 + i, documents.get ⟨i, h2⟩) :=
    get_enumerateFrom 0 documents i he h2
  rw [List.get_eq_getElem] at hg
  unfold fallbackResults
  rw [List.get_eq_getElem, List.getElem_map, hg]
  simp

/-! ### Helper lemmas: rerank branch equations -/

theorem rerank_with_crossencoder_eq (predict : List (String × String) → List ℝ)
    (query : String) (documents : List String) :
    rerank_with_crossencoder predict query documents =
      sortByScoreDesc (enumerate ((predict (documents.map
        (fun doc => (preprocess_korean_query query, doc)))).map sigmoid)) := rfl

theorem rerank_with_ollama_eq (embOf : String → List ℝ)
    (query : String) (documents : List String) :
    rerank_with_ollama embOf query documents =
      sortByScoreDesc ((enumerate (documents.map embOf)).map
        (fun p => (p.1, (cosine_similarity (embOf query) p.2 + 1) / 2))) := rfl

theorem rerank_eq_empty (RP : String) (ml : Bool)
    (predict : List (String × String) → List ℝ) (embOf : String → List ℝ)
    (q : String) (top_k : Option ℤ) :
    rerank RP ml predict embOf q [] top_k = ⟨[]⟩ := rfl

theorem rerank_eq_local (ml : Bool)
    (predict : List (String × String) → List ℝ) (embOf : String → List ℝ)
    (q : String) (documents : List PyDoc) (top_k : Option ℤ)
    (hne : documents ≠ []) (h2 : ml = true) :
    rerank "local" ml predict embOf q documents top_k =
      ⟨applyTopK top_k (buildResults (documents.map get_document_text)
        (rerank_with_crossencoder predict q
          (documents.map get_document_text)))⟩ := by
  subst h2
  rw [rerank, if_neg (by simpa [List.isEmpty_iff] using hne), if_pos ⟨rfl, rfl⟩]

theorem rerank_eq_ollama (ml : Bool)
    (predict : List (String × String) → List ℝ) (embOf : String → List ℝ)
    (q : String) (documents : List PyDoc) (top_k : Option ℤ)
    (hne : documents ≠ []) :
    rerank "ollama" ml predict embOf q documents top_k =
      ⟨applyTopK top_k (buildResults (documents.map get_document_text)
        (rerank_with_ollama embOf q (documents.map get_document_text)))⟩ := by
  rw [rerank, if_neg (by simpa [List.isEmpty_iff] using hne),
    if_neg (by simp), if_pos rfl]

theorem rerank_eq_fallback (RP : String) (ml : Bool)
    (predict : List (String × String) → List ℝ) (embOf : String → List ℝ)
    (q : String) (documents : List PyDoc) (top_k : Option ℤ)
    (hne : documents ≠ []) (h1 : ¬(RP = "local" ∧ ml = true))
    (h2 : RP ≠ "ollama") :
    rerank RP ml predict embOf q documents top_k =
      ⟨applyTopK top_k (fallbackResults documents)⟩ := by
  rw [rerank, if_neg (by simpa [List.isEmpty_iff] using hne), if_neg h1, if_neg h2]

/-! ### Helper lemmas: sigmoid and cosine similarity -/

theorem sigmoid_bounds (x : ℝ) : 0 ≤ sigmoid x ∧ sigmoid x ≤ 1 := by
  unfold sigmoid
  have he : 0 < Real.exp (-x) := Real.exp_pos _
  have h : 0 < 1 + Real.exp (-x) := by linarith
  constructor
  · positivity
  · rw [div_le_one h]
    linarith

theorem sigmoid_logit {y : ℝ} (h0 : 0 < y) (h1 : y < 1) :
    sigmoid (Real.log (y / (1 - y))) = y := by
  unfold sigmoid
  have hy1 : 0 < 1 - y := by linarith
  have ht : 0 < y / (1 - y) := div_pos h0 hy1
  rw [← Real.log_inv, Real.exp_log (by positivity)]
  rw [inv_div]
  field_simp

theorem sum_zipWith_mul_eq (v w : List ℝ) :
    (List.zipWith (fun a b => a * b) v w).sum =
      ∑ i ∈ Finset.range (min v.length w.length), v.getD i 0 * w.getD i 0 := by
  induction v generalizing w with
  | nil => simp
  | cons a v ih =>
    cases w with
    | nil => simp
    | cons b w =>
      simp only [List.zipWith_cons_cons, List.sum_cons, List.length_cons]
      rw [ih]
      have hmin : min (v.length + 1) (w.length + 1) = min v.length w.length + 1 := by
        omega
      rw [hmin, Finset.sum_range_succ']
      simp only [List.getD_cons_succ, List.getD_cons_zero]
      ring

theorem sum_map_sq_eq (v : List ℝ) :
    (v.map (fun a => a ^ 2)).sum =
      ∑ i ∈ Finset.range v.length, v.getD i 0 ^ 2 := by
  induction v with
  | nil => simp
  | cons a v ih =>
    simp only [List.map_cons, List.sum_cons, List.length_cons]
    rw [ih, Finset.sum_range_succ']
    simp only [List.getD_cons_succ, List.getD_cons_zero]
    ring

theorem abs_dot_le_norms (v w : List ℝ) :
    |(List.zipWith (fun a b => a * b) v w).sum| ≤
      Real.sqrt ((v.map (fun a => a ^ 2)).sum) *
        Real.sqrt ((w.map (fun a => a ^ 2)).sum) := by
  rw [sum_zipWith_mul_eq, sum_map_sq_eq, sum_map_sq_eq]
  have hsubv : Finset.range (min v.length w.length) ⊆ Finset.range v.length :=
    Finset.range_subset.mpr (Nat.min_le_left _ _)
  have hsubw : Finset.range (min v.length w.length) ⊆ Finset.range w.length :=
    Finset.range_subset.mpr (Nat.min_le_right _ _)
  have hv : ∑ i ∈ Finset.range (min v.length w.length), v.getD i 0 ^ 2 ≤
      ∑ i ∈ Finset.range v.length, v.getD i 0 ^ 2 :=
    Finset.sum_le_sum_of_subset_of_nonneg hsubv (fun i h1 h2 => sq_nonneg _)
  have hw : ∑ i ∈ Finset.range (min v.length w.length), w.getD i 0 ^ 2 ≤
      ∑ i ∈ Finset.range w.length, w.getD i 0 ^ 2 :=
    Finset.sum_le_sum_of_subset_of_nonneg hsubw (fun i h1 h2 => sq_nonneg _)
  have hbound : Real.sqrt (∑ i ∈ Finset.range (min v.length w.length), v.getD i 0 ^ 2) *
      Real.sqrt (∑ i ∈ Finset.range (min v.length w.length), w.getD i 0 ^ 2) ≤
      Real.sqrt (∑ i ∈ Finset.range v.length, v.getD i 0 ^ 2) *
        Real.sqrt (∑ i ∈ Finset.range w.length, w.getD i 0 ^ 2) :=
    mul_le_mul (Real.sqrt_le_sqrt hv) (Real.sqrt_le_sqrt hw)
      (Real.sqrt_nonneg _) (Real.sqrt_nonneg _)
  rw [abs_le]
  constructor
  · have hcs := Real.sum_mul_le_sqrt_mul_sqrt
      (Finset.range (min v.length w.length))
      (fun i => v.getD i 0) (fun i => -(w.getD i 0))
    simp only [mul_neg, Finset.sum_neg_distrib, neg_sq] at hcs
    have := neg_le_neg hcs
    rw [neg_neg] at this
    calc -(Real.sqrt (∑ i ∈ Finset.range v.length, v.getD i 0 ^ 2) *
          Real.sqrt (∑ i ∈ Finset.range w.length, w.getD i 0 ^ 2)) ≤
        -(Real.sqrt (∑ i ∈ Finset.range (min v.length w.length), v.getD i 0 ^ 2) *
          Real.sqrt (∑ i ∈ Finset.range (min v.length w.length), w.getD i 0 ^ 2)) :=
          neg_le_neg hbound
      _ ≤ ∑ i ∈ Finset.range (min v.length w.length), v.getD i 0 * w.getD i 0 :=
          this
  · exact le_trans (Real.sum_mul_le_sqrt_mul_sqrt _ _ _) hbound

theorem cosine_similarity_bounds (v w : List ℝ) :
    -1 ≤ cosine_similarity v w ∧ cosine_similarity v w ≤ 1 := by
  have hcos : cosine_similarity v w =
      if Real.sqrt ((v.map (fun a => a ^ 2)).sum) = 0 ∨
          Real.sqrt ((w.map (fun a => a ^ 2)).sum) = 0 then 0
      else (List.zipWith (fun a b => a * b) v w).sum /
        (Real.sqrt ((v.map (fun a => a ^ 2)).sum) *
          Real.sqrt ((w.map (fun a => a ^ 2)).sum)) := rfl
  rw [hcos]
  by_cases h : Real.sqrt ((v.map (fun a => a ^ 2)).sum) = 0 ∨
      Real.sqrt ((w.map (fun a => a ^ 2)).sum) = 0
  · rw [if_pos h]
    norm_num
  · rw [if_neg h]
    push_neg at h
    obtain ⟨h1, h2⟩ := h
    have p1 : 0 < Real.sqrt ((v.map (fun a => a ^ 2)).sum) :=
      lt_of_le_of_ne (Real.sqrt_nonneg _) (Ne.symm h1)
    have p2 : 0 < Real.sqrt ((w.map (fun a => a ^ 2)).sum) :=
      lt_of_le_of_ne (Real.sqrt_nonneg _) (Ne.symm h2)
    have p12 : 0 < Real.sqrt ((v.map (fun a => a ^ 2)).sum) *
        Real.sqrt ((w.map (fun a => a ^ 2)).sum) := mul_pos p1 p2
    have habs := abs_dot_le_norms v w
    rw [abs_le] at habs
    constructor
    · rw [le_div_iff₀ p12]
      linarith [habs.1]
    · rw [div_le_one p12]
      exact habs.2

/-- C10: a /rerank request with an empty documents list returns a response
with an empty results list, without error, for every provider configuration
and every top_k; the outcome does not depend on the backends (`predict` and
`embOf` are never consulted). -/
theorem rerank_empty_documents (RP : String) (ml : Bool)
    (predict : List (String × String) → List ℝ) (embOf : String → List ℝ)
    (q : String) (top_k : Option ℤ) :
    (rerank RP ml predict embOf q [] top_k).results = [] ∧
    rerank RP ml predict embOf q [] top_k =
      rerank RP ml (fun _ => []) (fun _ => []) q [] top_k :=
  ⟨rfl, rfl⟩

/-- C7: when neither the local CrossEncoder branch (provider "local" with a
loaded model) nor the Ollama branch applies, /rerank returns the documents
in their original order — result i has index i and document str(doc_i) —
with strictly decreasing relevance scores computed as 1.0 - 0.01 * i. -/
theorem rerank_fallback_original_order (RP : String) (ml : Bool)
    (predict : List (String × String) → List ℝ) (embOf : String → List ℝ)
    (q : String) (documents : List PyDoc) (top_k : Option ℤ)
    (h1 : ¬(RP = "local" ∧ ml = true)) (h2 : RP ≠ "ollama") :
    (∀ i (h : i < (rerank RP ml predict embOf q documents top_k).results.length),
      (rerank RP ml predict embOf q documents top_k).results.get ⟨i, h⟩ =
        ⟨i, pyStr (documents.getD i default), 1 - (i : ℝ) * (1 / 100)⟩) ∧
    (rerank RP ml predict embOf q documents top_k).results.Pairwise
      (fun a b => b.relevance_score < a.relevance_score ∧ a.index < b.index) := by
  by_cases hne : documents = []
  · subst hne
    refine ⟨fun i h => absurd h (by simp [rerank_eq_empty]), ?_⟩
    have he : rerank RP ml predict embOf q [] top_k = ⟨[]⟩ := rfl
    rw [he]
    exact List.Pairwise.nil
  · rw [rerank_eq_fallback RP ml predict embOf q documents top_k hne h1 h2]
    constructor
    · intro i h
      have hfl : i < (fallbackResults documents : List (RerankResult ℝ)).length :=
        lt_of_lt_of_le h (length_applyTopK_le _ _)
      have hdl : i < documents.length := by
        rw [length_fallbackResults] at hfl
        exact hfl
      rw [get_applyTopK top_k _ i h hfl, get_fallbackResults documents i hfl hdl,
        format6_one_sub_idx, getD_eq_get documents default hdl]
    · apply pairwise_applyTopK
      unfold fallbackResults
      refine List.Pairwise.map _ ?_ (pairwise_fst_lt_enumerate documents)
      intro a b hab
      refine ⟨?_, hab⟩
      rw [format6_one_sub_idx, format6_one_sub_idx]
      have hc : (a.1 : ℝ) < (b.1 : ℝ) := by exact_mod_cast hab
      linarith

/-- Witness for C7: provider "none" (no model), one document, no top_k. -/
theorem rerank_fallback_original_order_witness :
    (∀ i (h : i < (rerank "none" false (fun _ => []) (fun _ => []) "q"
        [PyDoc.pystr "a"] none).results.length),
      (rerank "none" false (fun _ => []) (fun _ => []) "q"
        [PyDoc.pystr "a"] none).results.get ⟨i, h⟩ =
        ⟨i, pyStr ([PyDoc.pystr "a"].getD i default), 1 - (i : ℝ) * (1 / 100)⟩) ∧
    (rerank "none" false (fun _ => []) (fun _ => []) "q"
        [PyDoc.pystr "a"] none).results.Pairwise
      (fun a b => b.relevance_score < a.relevance_score ∧ a.index < b.index) :=
  rerank_fallback_original_order "none" false (fun _ => []) (fun _ => []) "q"
    [PyDoc.pystr "a"] none (by decide) (by decide)

/-- C6: the /rerank result count never exceeds the number of input
documents, and with a positive integer top_k it equals
min(top_k, number of documents); the hypothesis on `predict` is the
CrossEncoder library contract of one score per input pair. -/
theorem rerank_topk_count (RP : String) (ml : Bool)
    (predict : List (String × String) → List ℝ) (embOf : String → List ℝ)
    (q : String) (documents : List PyDoc) (top_k : Option ℤ)
    (hp : ∀ ps, (predict ps).length = ps.length) :
    (rerank RP ml predict embOf q documents top_k).results.length ≤
      documents.length ∧
    ∀ k : ℤ, top_k = some k → 0 < k →
      (rerank RP ml predict embOf q documents top_k).results.length =
        min k.toNat documents.length := by
  by_cases hne : documents = []
  · subst hne
    have he : rerank RP ml predict embOf q [] top_k = ⟨[]⟩ := rfl
    rw [he]
    exact ⟨Nat.zero_le _, fun k hk hkpos => by simp⟩
  · obtain ⟨base, hbase, hlen⟩ :
      ∃ base : List (RerankResult ℝ),
        (rerank RP ml predict embOf q documents top_k).results =
          applyTopK top_k base ∧ base.length = documents.length := by
      by_cases hL : RP = "local" ∧ ml = true
      · obtain ⟨hL1, hL2⟩ := hL
        subst hL1
        rw [rerank_eq_local ml predict embOf q documents top_k hne hL2]
        refine ⟨_, rfl, ?_⟩
        rw [length_buildResults, rerank_with_crossencoder_eq,
          length_sortByScoreDesc, length_enumerate, List.length_map, hp,
          List.length_map, List.length_map]
      · by_cases hO : RP = "ollama"
        · subst hO
          rw [rerank_eq_ollama ml predict embOf q documents top_k hne]
          refine ⟨_, rfl, ?_⟩
          rw [length_buildResults, rerank_with_ollama_eq,
            length_sortByScoreDesc, List.length_map, length_enumerate,
            List.length_map, List.length_map]
        · rw [rerank_eq_fallback RP ml predict embOf q documents top_k hne hL hO]
          exact ⟨_, rfl, length_fallbackResults documents⟩
    rw [hbase]
    constructor
    · rw [← hlen]
      exact length_applyTopK_le top_k base
    · intro k hk hkpos
      subst hk
      rw [length_applyTopK_pos k hkpos, hlen]

/-- Witness for C6: one document, top_k = 5, no model configured. -/
theorem rerank_topk_count_witness :
    (rerank "x" false (fun ps => ps.map (fun _ => 0)) (fun _ => []) "q"
      [PyDoc.pystr "a"] (some 5)).results.length ≤ [PyDoc.pystr "a"].length ∧
    ∀ k : ℤ, (some 5 : Option ℤ) = some k → 0 < k →
      (rerank "x" false (fun ps => ps.map (fun _ => 0)) (fun _ => []) "q"
        [PyDoc.pystr "a"] (some 5)).results.length =
        min k.toNat [PyDoc.pystr "a"].length :=
  rerank_topk_count "x" false (fun ps => ps.map (fun _ => 0)) (fun _ => []) "q"
    [PyDoc.pystr "a"] (some 5) (fun ps => by rw [List.length_map])

theorem pairwise_fst_ne_sortByScoreDesc {β : Type} [LinearOrder β]
    {l : List (ℕ × β)} (hl : l.Pairwise (fun a b => a.1 < b.1)) :
    (sortByScoreDesc l).Pairwise (fun a b => a.1 ≠ b.1) :=
  ((perm_sortByScoreDesc l).pairwise_iff (fun h => Ne.symm h)).mpr
    (hl.imp (fun h => Nat.ne_of_lt h))

theorem mem_rerank_with_crossencoder
    {predict : List (String × String) → List ℝ} {q : String}
    {documents : List String} {p : ℕ × ℝ}
    (h : p ∈ rerank_with_crossencoder predict q documents) :
    p.1 < (predict (documents.map
      (fun doc => (preprocess_korean_query q, doc)))).length ∧
    ∃ x, p.2 = sigmoid x := by
  rw [rerank_with_crossencoder_eq, mem_sortByScoreDesc] at h
  constructor
  · have h1 := (mem_enumerate h).1
    rw [List.length_map] at h1
    exact h1
  · have h2 := snd_mem_of_mem_enumerateFrom h
    rcases List.mem_map.mp h2 with ⟨x, hx, he⟩
    exact ⟨x, he.symm⟩

theorem mem_rerank_with_ollama {embOf : String → List ℝ} {q : String}
    {documents : List String} {p : ℕ × ℝ}
    (h : p ∈ rerank_with_ollama embOf q documents) :
    p.1 < documents.length ∧
    ∃ v, p.2 = (cosine_similarity (embOf q) v + 1) / 2 := by
  rw [rerank_with_ollama_eq, mem_sortByScoreDesc] at h
  rcases List.mem_map.mp h with ⟨pe, hpe, he⟩
  have hm := (mem_enumerate hpe).1
  rw [List.length_map] at hm
  constructor
  · rw [← he]
    exact hm
  · refine ⟨pe.2, ?_⟩
    rw [← he]

theorem pairwise_fst_ne_rerank_with_crossencoder
    (predict : List (String × String) → List ℝ) (q : String)
    (documents : List String) :
    (rerank_with_crossencoder predict q documents).Pairwise
      (fun a b => a.1 ≠ b.1) := by
  rw [rerank_with_crossencoder_eq]
  exact pairwise_fst_ne_sortByScoreDesc (pairwise_fst_lt_enumerate _)

theorem pairwise_fst_ne_rerank_with_ollama (embOf : String → List ℝ)
    (q : String) (documents : List String) :
    (rerank_with_ollama embOf q documents).Pairwise (fun a b => a.1 ≠ b.1) := by
  rw [rerank_with_ollama_eq]
  apply pairwise_fst_ne_sortByScoreDesc
  exact List.Pairwise.map _ (fun a b h => h) (pairwise_fst_lt_enumerate _)

/-- C9: in every /rerank response the result indices are pairwise distinct
and lie in [0, number of documents); on the model branches (local
CrossEncoder and Ollama) each result's document equals the
`get_document_text` extraction of the input document at that result's
index, and the same holds on every branch under the request model's
constraint that documents are strings (`documents: list[str]`).  The
`predict` hypothesis is the CrossEncoder contract of one score per pair. -/
theorem rerank_document_and_indices (RP : String) (ml : Bool)
    (predict : List (String × String) → List ℝ) (embOf : String → List ℝ)
    (q : String) (documents : List PyDoc) (top_k : Option ℤ)
    (hp : ∀ ps, (predict ps).length = ps.length) :
    (∀ r ∈ (rerank RP ml predict embOf q documents top_k).results,
      r.index < documents.length) ∧
    (rerank RP ml predict embOf q documents top_k).results.Pairwise
      (fun a b => a.index ≠ b.index) ∧
    (((RP = "local" ∧ ml = true) ∨ RP = "ollama") →
      ∀ r ∈ (rerank RP ml predict embOf q documents top_k).results,
        r.document = (documents.map get_document_text).getD r.index "") ∧
    ((∀ d ∈ documents, ∃ s, d = PyDoc.pystr s) →
      ∀ r ∈ (rerank RP ml predict embOf q documents top_k).results,
        r.document = (documents.map get_document_text).getD r.index "") := by
  by_cases hne : documents = []
  · subst hne
    have he : rerank RP ml predict embOf q [] top_k = ⟨[]⟩ := rfl
    rw [he]
    exact ⟨by simp, List.Pairwise.nil, by simp, by simp⟩
  · by_cases hL : RP = "local" ∧ ml = true
    · obtain ⟨hL1, hL2⟩ := hL
      subst hL1
      rw [rerank_eq_local ml predict embOf q documents top_k hne hL2]
      have helem : ∀ r ∈ applyTopK top_k
          (buildResults (documents.map get_document_text)
            (rerank_with_crossencoder predict q
              (documents.map get_document_text))),
          r.index < documents.length ∧
          r.document = (documents.map get_document_text).getD r.index "" := by
        intro r hr
        obtain ⟨p, hp2, he2⟩ := mem_buildResults (mem_applyTopK hr)
        have hm := (mem_rerank_with_crossencoder hp2).1
        rw [hp, List.length_map, List.length_map] at hm
        subst he2
        exact ⟨hm, rfl⟩
      refine ⟨fun r hr => (helem r hr).1, ?_, fun h3 r hr => (helem r hr).2,
        fun h4 r hr => (helem r hr).2⟩
      apply pairwise_applyTopK
      unfold buildResults
      exact List.Pairwise.map _ (fun a b h => h)
        (pairwise_fst_ne_rerank_with_crossencoder predict q _)
    · by_cases hO : RP = "ollama"
      · subst hO
        rw [rerank_eq_ollama ml predict embOf q documents top_k hne]
        have helem : ∀ r ∈ applyTopK top_k
            (buildResults (documents.map get_document_text)
              (rerank_with_ollama embOf q (documents.map get_document_text))),
            r.index < documents.length ∧
            r.document = (documents.map get_document_text).getD r.index "" := by
          intro r hr
          obtain ⟨p, hp2, he2⟩ := mem_buildResults (mem_applyTopK hr)
          have hm := (mem_rerank_with_ollama hp2).1
          rw [List.length_map] at hm
          subst he2
          exact ⟨hm, rfl⟩
        refine ⟨fun r hr => (helem r hr).1, ?_, fun h3 r hr => (helem r hr).2,
          fun h4 r hr => (helem r hr).2⟩
        apply pairwise_applyTopK
        unfold buildResults
        exact List.Pairwise.map _ (fun a b h => h)
          (pairwise_fst_ne_rerank_with_ollama embOf q _)
      · rw [rerank_eq_fallback RP ml predict embOf q documents top_k hne hL hO]
        have helem : ∀ r ∈ applyTopK top_k
            (fallbackResults documents : List (RerankResult ℝ)),
            ∃ p ∈ enumerate documents,
              r = ⟨p.1, pyStr p.2, format6 (1 - (p.1 : ℝ) * (1 / 100))⟩ :=
          fun r hr => mem_fallbackResults (mem_applyTopK hr)
        refine ⟨?_, ?_, ?_, ?_⟩
        · intro r hr
          obtain ⟨p, hp2, he2⟩ := helem r hr
          subst he2
          exact (mem_enumerate hp2).1
        · apply pairwise_applyTopK
          unfold fallbackResults
          exact List.Pairwise.map _ (fun a b h => Nat.ne_of_lt h)
            (pairwise_fst_lt_enumerate documents)
        · intro h3
          rcases h3 with h3 | h3
          · exact absurd h3 hL
          · exact absurd h3 hO
        · intro h4 r hr
          obtain ⟨p, hp2, he2⟩ := helem r hr
          obtain ⟨hplt, hpd⟩ := mem_enumerate hp2
          obtain ⟨s, hs⟩ := h4 (documents.getD p.1 default)
            (getD_mem documents default hplt)
          subst he2
          show pyStr p.2 = (documents.map get_document_text).getD p.1 ""
          rw [hpd, hs, getD_map_of_lt get_document_text documents hplt "" default,
            hs]
          rfl

/-- Witness for C9: one string document on the Ollama branch with top_k 1. -/
theorem rerank_document_and_indices_witness :
    (∀ r ∈ (rerank "ollama" false (fun ps => ps.map (fun _ => 0)) (fun _ => [])
        "q" [PyDoc.pystr "a"] (some 1)).results,
      r.index < [PyDoc.pystr "a"].length) ∧
    (rerank "ollama" false (fun ps => ps.map (fun _ => 0)) (fun _ => [])
        "q" [PyDoc.pystr "a"] (some 1)).results.Pairwise
      (fun a b => a.index ≠ b.index) ∧
    ((("ollama" = "local" ∧ false = true) ∨ "ollama" = "ollama") →
      ∀ r ∈ (rerank "ollama" false (fun ps => ps.map (fun _ => 0)) (fun _ => [])
          "q" [PyDoc.pystr "a"] (some 1)).results,
        r.document = ([PyDoc.pystr "a"].map get_document_text).getD r.index "") ∧
    ((∀ d ∈ [PyDoc.pystr "a"], ∃ s, d = PyDoc.pystr s) →
      ∀ r ∈ (rerank "ollama" false (fun ps => ps.map (fun _ => 0)) (fun _ => [])
          "q" [PyDoc.pystr "a"] (some 1)).results,
        r.document = ([PyDoc.pystr "a"].map get_document_text).getD r.index "") :=
  rerank_document_and_indices "ollama" false (fun ps => ps.map (fun _ => 0))
    (fun _ => []) "q" [PyDoc.pystr "a"] (some 1)
    (fun ps => by rw [List.length_map])

/-- C4 (amended): on every provider branch the /rerank results list is
sorted in non-increasing order of relevance_score, and the sorted score
lists produced by the cross-encoder and Ollama helpers order raw-score ties
by ascending original index (stability of the sort); however, because
response scores are rounded to six decimal places after sorting, two
results with equal rounded relevance_score may appear in descending index
order when their raw scores differ (see the counterexample). -/
theorem rerank_sorted_desc (RP : String) (ml : Bool)
    (predict : List (String × String) → List ℝ) (embOf : String → List ℝ)
    (q : String) (documents : List PyDoc) (top_k : Option ℤ) :
    (rerank RP ml predict embOf q documents top_k).results.Pairwise
      (fun a b => b.relevance_score ≤ a.relevance_score) ∧
    (∀ (qq : String) (docs : List String),
      (rerank_with_crossencoder predict qq docs).Pairwise scoreDescIdxAsc) ∧
    (∀ (qq : String) (docs : List String),
      (rerank_with_ollama embOf qq docs).Pairwise scoreDescIdxAsc) := by
  refine ⟨?_, ?_, ?_⟩
  · by_cases hne : documents = []
    · subst hne
      have he : rerank RP ml predict embOf q [] top_k = ⟨[]⟩ := rfl
      rw [he]
      exact List.Pairwise.nil
    · by_cases hL : RP = "local" ∧ ml = true
      · obtain ⟨hL1, hL2⟩ := hL
        subst hL1
        rw [rerank_eq_local ml predict embOf q documents top_k hne hL2]
        apply pairwise_applyTopK
        unfold buildResults
        refine List.Pairwise.map _
          (fun a b h => format6_mono (scoreDescIdxAsc_score_le h)) ?_
        rw [rerank_with_crossencoder_eq]
        exact pairwise_sortByScoreDesc (pairwise_fst_lt_enumerate _)
      · by_cases hO : RP = "ollama"
        · subst hO
          rw [rerank_eq_ollama ml predict embOf q documents top_k hne]
          apply pairwise_applyTopK
          unfold buildResults
          refine List.Pairwise.map _
            (fun a b h => format6_mono (scoreDescIdxAsc_score_le h)) ?_
          rw [rerank_with_ollama_eq]
          apply pairwise_sortByScoreDesc
          exact List.Pairwise.map _ (fun a b h => h)
            (pairwise_fst_lt_enumerate _)
        · rw [rerank_eq_fallback RP ml predict embOf q documents top_k hne hL hO]
          apply pairwise_applyTopK
          unfold fallbackResults
          refine List.Pairwise.map _ ?_ (pairwise_fst_lt_enumerate documents)
          intro a b hab
          apply format6_mono
          have hc : (a.1 : ℝ) < (b.1 : ℝ) := by exact_mod_cast hab
          linarith
  · intro qq docs
    rw [rerank_with_crossencoder_eq]
    exact pairwise_sortByScoreDesc (pairwise_fst_lt_enumerate _)
  · intro qq docs
    rw [rerank_with_ollama_eq]
    apply pairwise_sortByScoreDesc
    exact List.Pairwise.map _ (fun a b h => h) (pairwise_fst_lt_enumerate _)

/-- C4 counterexample: on the local CrossEncoder branch, raw normalized
scores sigmoid(logit(0.6000001)) = 0.6000001 for document 0 and
sigmoid(logit(0.6000004)) = 0.6000004 for document 1 are distinct, but both
round to six decimals as 0.600000 = 3/5; the response lists index 1 before
index 0 with equal relevance_score, so results with equal (response)
scores do not appear in ascending index order. -/
theorem rerank_rounding_tie_counterexample :
    (rerank "local" true
      (fun _ => [Real.log ((6000001 / 10000000) / (1 - 6000001 / 10000000)),
                 Real.log ((6000004 / 10000000) / (1 - 6000004 / 10000000))])
      (fun _ => []) "q" [PyDoc.pystr "a", PyDoc.pystr "b"] none).results =
      [⟨1, "b", 3 / 5⟩, ⟨0, "a", 3 / 5⟩] ∧
    ¬ (rerank "local" true
      (fun _ => [Real.log ((6000001 / 10000000) / (1 - 6000001 / 10000000)),
                 Real.log ((6000004 / 10000000) / (1 - 6000004 / 10000000))])
      (fun _ => []) "q" [PyDoc.pystr "a", PyDoc.pystr "b"] none).results.Pairwise
      (fun a b => a.relevance_score = b.relevance_score → a.index < b.index) := by
  have hy0 : sigmoid (Real.log (((6000001 : ℝ) / 10000000) /
      (1 - 6000001 / 10000000))) = 6000001 / 10000000 :=
    sigmoid_logit (by norm_num) (by norm_num)
  have hy1 : sigmoid (Real.log (((6000004 : ℝ) / 10000000) /
      (1 - 6000004 / 10000000))) = 6000004 / 10000000 :=
    sigmoid_logit (by norm_num) (by norm_num)
  have hf0 : format6 ((6000001 : ℝ) / 10000000) = 3 / 5 := by
    unfold format6
    have hx : (6000001 : ℝ) / 10000000 * 1000000 = 6000001 / 10 := by ring
    rw [hx]
    have hr : round ((6000001 : ℝ) / 10) = 600000 := by
      rw [round_eq, Int.floor_eq_iff]
      constructor
      · push_cast
        norm_num
      · push_cast
        norm_num
    rw [hr]
    norm_num
  have hf1 : format6 ((6000004 : ℝ) / 10000000) = 3 / 5 := by
    unfold format6
    have hx : (6000004 : ℝ) / 10000000 * 1000000 = 6000004 / 10 := by ring
    rw [hx]
    have hr : round ((6000004 : ℝ) / 10) = 600000 := by
      rw [round_eq, Int.floor_eq_iff]
      constructor
      · push_cast
        norm_num
      · push_cast
        norm_num
    rw [hr]
    norm_num
  have hmain : (rerank "local" true
      (fun _ => [Real.log ((6000001 / 10000000) / (1 - 6000001 / 10000000)),
                 Real.log ((6000004 / 10000000) / (1 - 6000004 / 10000000))])
      (fun _ => []) "q" [PyDoc.pystr "a", PyDoc.pystr "b"] none).results =
      [⟨1, "b", 3 / 5⟩, ⟨0, "a", 3 / 5⟩] := by
    rw [rerank_eq_local true _ (fun _ => []) "q"
      [PyDoc.pystr "a", PyDoc.pystr "b"] none (by simp) rfl]
    show applyTopK none (buildResults _ _) = _
    rw [rerank_with_crossencoder_eq]
    simp only [List.map_cons, List.map_nil, List.map]
    rw [hy0, hy1]
    show applyTopK none (buildResults ["a", "b"] (sortByScoreDesc
      (enumerate [(6000001 : ℝ) / 10000000, 6000004 / 10000000]))) = _
    have hsort : sortByScoreDesc
        (enumerate [(6000001 : ℝ) / 10000000, 6000004 / 10000000]) =
        [(1, (6000004 : ℝ) / 10000000), (0, (6000001 : ℝ) / 10000000)] := by
      show insertScoreDesc (0, (6000001 : ℝ) / 10000000)
        (insertScoreDesc (1, (6000004 : ℝ) / 10000000) []) = _
      rw [insertScoreDesc, insertScoreDesc,
        if_neg (by norm_num : ¬ ((1, (6000004 : ℝ) / 10000000).2 ≤
          (0, (6000001 : ℝ) / 10000000).2))]
      rfl
    rw [hsort]
    show [(⟨1, "b", format6 ((6000004 : ℝ) / 10000000)⟩ : RerankResult ℝ),
      ⟨0, "a", format6 ((6000001 : ℝ) / 10000000)⟩] = _
    rw [hf0, hf1]
  refine ⟨hmain, ?_⟩
  rw [hmain]
  intro hpw
  rcases List.pairwise_cons.mp hpw with ⟨hrel, _⟩
  have habs := hrel _ (List.mem_cons_self _ _) rfl
  exact absurd habs (by decide)

/-- C5 (amended): every relevance_score lies in [0, 1] on the cross-encoder
branch (sigmoid normalization) and on the Ollama branch (cosine similarity
rescaled by (score + 1) / 2); on the no-model fallback branch the scores
are 1.0 - 0.01 * i, which lie in [0, 1] only while every index stays at
most 100, i.e. for at most 101 documents (see the counterexample for 102
documents). -/
theorem rerank_scores_in_unit_interval (RP : String) (ml : Bool)
    (predict : List (String × String) → List ℝ) (embOf : String → List ℝ)
    (q : String) (documents : List PyDoc) (top_k : Option ℤ) :
    ((RP = "local" ∧ ml = true) →
      ∀ r ∈ (rerank RP ml predict embOf q documents top_k).results,
        0 ≤ r.relevance_score ∧ r.relevance_score ≤ 1) ∧
    (RP = "ollama" →
      ∀ r ∈ (rerank RP ml predict embOf q documents top_k).results,
        0 ≤ r.relevance_score ∧ r.relevance_score ≤ 1) ∧
    (¬(RP = "local" ∧ ml = true) → RP ≠ "ollama" → documents.length ≤ 101 →
      ∀ r ∈ (rerank RP ml predict embOf q documents top_k).results,
        0 ≤ r.relevance_score ∧ r.relevance_score ≤ 1) := by
  refine ⟨?_, ?_, ?_⟩
  · rintro ⟨hL1, hL2⟩ r hr
    subst hL1
    by_cases hne : documents = []
    · have he : rerank "local" ml predict embOf q documents top_k = ⟨[]⟩ := by
        rw [hne]
        rfl
      rw [he] at hr
      exact absurd hr (List.not_mem_nil r)
    · rw [rerank_eq_local ml predict embOf q documents top_k hne hL2] at hr
      obtain ⟨p, hp2, he2⟩ := mem_buildResults (mem_applyTopK hr)
      obtain ⟨x, hx⟩ := (mem_rerank_with_crossencoder hp2).2
      subst he2
      show 0 ≤ format6 p.2 ∧ format6 p.2 ≤ 1
      rw [hx]
      exact format6_bounds (sigmoid_bounds x).1 (sigmoid_bounds x).2
  · intro hO r hr
    subst hO
    by_cases hne : documents = []
    · have he : rerank "ollama" ml predict embOf q documents top_k = ⟨[]⟩ := by
        rw [hne]
        rfl
      rw [he] at hr
      exact absurd hr (List.not_mem_nil r)
    · rw [rerank_eq_ollama ml predict embOf q documents top_k hne] at hr
      obtain ⟨p, hp2, he2⟩ := mem_buildResults (mem_applyTopK hr)
      obtain ⟨v, hv⟩ := (mem_rerank_with_ollama hp2).2
      subst he2
      show 0 ≤ format6 p.2 ∧ format6 p.2 ≤ 1
      rw [hv]
      have hcos := cosine_similarity_bounds (embOf q) v
      exact format6_bounds (by linarith [hcos.1]) (by linarith [hcos.2])
  · intro hL hO hlen r hr
    by_cases hne : documents = []
    · have he : rerank RP ml predict embOf q documents top_k = ⟨[]⟩ := by
        rw [hne]
        rfl
      rw [he] at hr
      exact absurd hr (List.not_mem_nil r)
    · rw [rerank_eq_fallback RP ml predict embOf q documents top_k hne hL hO] at hr
      obtain ⟨p, hp2, he2⟩ := mem_fallbackResults (mem_applyTopK hr)
      have hplt := (mem_enumerate hp2).1
      have hple : p.1 ≤ 100 := by omega
      subst he2
      show 0 ≤ format6 (1 - (p.1 : ℝ) * (1 / 100)) ∧
        format6 (1 - (p.1 : ℝ) * (1 / 100)) ≤ 1
      have hc : (p.1 : ℝ) ≤ 100 := by exact_mod_cast hple
      have hc0 : (0 : ℝ) ≤ (p.1 : ℝ) := Nat.cast_nonneg _
      exact format6_bounds (by linarith) (by linarith)

/-- The fallback response for a single string document: used to exhibit a
concrete member for the C5 witness. -/
theorem rerank_fallback_single_eq :
    (rerank "x" false (fun _ => []) (fun _ => []) "q" [PyDoc.pystr "a"]
      none).results = [⟨0, "a", format6 (1 - ((0 : ℕ) : ℝ) * (1 / 100))⟩] := rfl

/-- Witness for the amended C5 on the fallback branch with one document. -/
theorem rerank_scores_in_unit_interval_witness :
    0 ≤ (⟨0, "a", format6 (1 - ((0 : ℕ) : ℝ) * (1 / 100))⟩ :
        RerankResult ℝ).relevance_score ∧
    (⟨0, "a", format6 (1 - ((0 : ℕ) : ℝ) * (1 / 100))⟩ :
        RerankResult ℝ).relevance_score ≤ 1 :=
  (rerank_scores_in_unit_interval "x" false (fun _ => []) (fun _ => []) "q"
    [PyDoc.pystr "a"] none).2.2 (by decide) (by decide) (by decide) _
    (by rw [rerank_fallback_single_eq]; exact List.mem_singleton.mpr rfl)

/-- C5 counterexample: with no rerank model available and 102 documents the
fallback branch returns, at index 101, the relevance_score
1.0 - 0.01 * 101 = -0.01 < 0, outside the claimed interval [0, 1]. -/
theorem rerank_fallback_score_below_zero :
    101 < (rerank "none" false (fun _ => []) (fun _ => []) "q"
      (List.replicate 102 (PyDoc.pystr "d")) none).results.length ∧
    ((rerank "none" false (fun _ => []) (fun _ => []) "q"
      (List.replicate 102 (PyDoc.pystr "d")) none).results.getD 101
      ⟨0, "", 0⟩).relevance_score < 0 := by
  have hsh : (rerank "none" false (fun _ => []) (fun _ => []) "q"
      (List.replicate 102 (PyDoc.pystr "d")) none).results =
      fallbackResults (List.replicate 102 (PyDoc.pystr "d")) := by
    rw [rerank_eq_fallback "none" false (fun _ => []) (fun _ => []) "q"
      (List.replicate 102 (PyDoc.pystr "d")) none (by simp) (by decide)
      (by decide)]
    rfl
  have hlen : (fallbackResults (List.replicate 102 (PyDoc.pystr "d")) :
      List (RerankResult ℝ)).length = 102 := by
    rw [length_fallbackResults, List.length_replicate]
  have h101 : 101 < (fallbackResults (List.replicate 102 (PyDoc.pystr "d")) :
      List (RerankResult ℝ)).length := by
    rw [hlen]
    norm_num
  have h101d : 101 < (List.replicate 102 (PyDoc.pystr "d")).length := by
    rw [List.length_replicate]
    norm_num
  constructor
  · rw [hsh]
    exact h101
  · rw [hsh, getD_eq_get _ _ h101,
      get_fallbackResults (List.replicate 102 (PyDoc.pystr "d")) 101 h101 h101d,
      format6_one_sub_idx]
    show (1 : ℝ) - (101 : ℕ) * (1 / 100) < 0
    push_cast
    norm_num

end Skald
